import Mathlib

/-!
Verification of the wrap-mode engine of `isort/wrap_modes.py`.

The module defines eight wrap-mode strategies (grid, vertical, hanging_indent,
vertical_hanging_indent, vertical_grid, vertical_grid_grouped,
vertical_grid_grouped_no_comma, noqa), a shared grid-packing primitive
`vertical_grid_common`, and a registry with lookup by member name or ordinal
(`from_string`) and a permissive name-to-function lookup
(`formatter_from_string`).

Strings are modelled by Lean `String` (a list of characters, matching the
Python code-point semantics of `len` and slicing for the inputs considered).
Python `s.split(sep)` is modelled by `splitList` below, and the external
comment attacher `comments.add_to_line` (whose module is not among the
sources) is modelled from the spec as `addToLine`.
-/

/-- Python-style string split on a non-empty separator, on character lists.
The fuel argument makes the recursion structural; fuel equal to the length of
the list is always sufficient since a match consumes at least one character. -/
def splitListF (sepp : List Char) : Nat → List Char → List (List Char)
  | _, [] => [[]]
  | 0, l => [l]
  | fuel + 1, c :: rest =>
    if !sepp.isEmpty && sepp.isPrefixOf (c :: rest) then
      [] :: splitListF sepp fuel ((c :: rest).drop sepp.length)
    else
      match splitListF sepp fuel rest with
      | [] => [[c]]
      | p :: ps => (c :: p) :: ps

/-- Python `s.split(sep)` on character lists (for non-empty `sepp`). -/
def splitList (sepp l : List Char) : List (List Char) :=
  splitListF sepp l.length l

/-- Python `sep.join(parts)`. -/
def joinSep (s : String) : List String → String
  | [] => ""
  | [x] => x
  | x :: xs => x ++ s ++ joinSep s xs

/-- Python `len(text.split(line_separator)[-1])`: the length of the last
physical line of `text` with respect to the separator `sepp`. -/
def lastLineLen (sepp text : String) : Nat :=
  ((splitList sepp.data text.data).getLastD []).length

/-- Number of (possibly overlapping) occurrences of `pat` as a contiguous
sublist of `l`. -/
def countOcc (pat : List Char) : List Char → Nat
  | [] => 0
  | c :: rest => (if pat.isPrefixOf (c :: rest) then 1 else 0) + countOcc pat rest

/-- Append `b` to the last element of a list of lines (used to describe how a
separator-free suffix extends the final physical line). -/
def appendLast (b : List Char) : List (List Char) → List (List Char)
  | [] => [b]
  | [x] => [x ++ b]
  | x :: xs => x :: appendLast b xs

/-- The common parameter set consumed by every wrap-mode strategy (the
`**interface` dictionary of the source, as fixed by `_wrap_mode_interface`). -/
structure Interface where
  statement : String
  imports : List String
  white_space : String
  indent : String
  line_length : Nat
  comments : List String
  line_separator : String
  comment_pfx : String
  include_trailing_comma : Bool
  remove_comments : Bool

/-- Modelled from the spec: the external comment attacher
`comments.add_to_line` of the `isort.comments` module, which is not among the
sources. Per the spec contract: when `removed` is true the line is returned
unchanged and the pending comments are discarded; otherwise, when the pending
comment list is non-empty, `comment_prefix ++ " " ++ joined comments` is
appended to the line; with no pending comments the line is returned
unchanged. -/
def addToLine (cmts : List String) (line : String) (removed : Bool) (cp : String) : String :=
  if removed then line
  else if cmts.isEmpty then line
  else line ++ cp ++ " " ++ joinSep " " cmts

/-- The word-wrapping inner loop of `grid`: greedily pack the remaining words
onto the current line, starting a fresh line (indented by `ws`) whenever a
word would push the line past the limit. The accumulator holds the earlier
lines in reverse order. -/
def gridWrapAux (ws : String) (ll : Nat) : List String → String → List String → List String
  | [], cur, acc => (cur :: acc).reverse
  | part :: parts, cur, acc =>
    let new_line := cur ++ " " ++ part
    if new_line.length + 1 > ll then
      gridWrapAux ws ll parts (ws ++ part) (cur :: acc)
    else
      gridWrapAux ws ll parts new_line acc

/-- The word-wrap of one overlong import in `grid`: split the token on single
spaces and pack the words into lines under `ws`. -/
def gridWrapLines (ws : String) (ll : Nat) (next : String) : List String :=
  match (splitList [' '] next.data).map String.mk with
  | [] => []
  | w :: parts => gridWrapAux ws ll parts (ws ++ w) []

/-- The while loop of `grid`: consume the remaining imports one at a time,
packing each onto the last physical line when it fits (with one reserved
column), and otherwise flushing the pending comments and word-wrapping
the import onto continuation lines under `white_space`. -/
def gridAux (ws : String) (ll : Nat) (sep cp : String) (removed : Bool) :
    List String → String → List String → String
  | [], s, _ => s
  | next :: rest, s, cmts =>
    let next_statement := addToLine cmts (s ++ ", " ++ next) removed cp
    if lastLineLen sep next_statement + 1 > ll then
      let next_import := joinSep sep (gridWrapLines ws ll next)
      gridAux ws ll sep cp removed rest
        (addToLine cmts (s ++ ",") removed cp ++ sep ++ next_import) []
    else
      gridAux ws ll sep cp removed rest (s ++ ", " ++ next) cmts

/-- The `grid` strategy. -/
def grid (i : Interface) : String :=
  match i.imports with
  | [] => ""
  | first :: rest =>
    gridAux i.white_space i.line_length i.line_separator i.comment_pfx i.remove_comments
        rest (i.statement ++ "(" ++ first) i.comments
      ++ (if i.include_trailing_comma then "," else "") ++ ")"

/-- The `vertical` strategy. -/
def vertical (i : Interface) : String :=
  match i.imports with
  | [] => ""
  | first :: rest =>
    let first_import :=
      addToLine i.comments (first ++ ",") i.remove_comments i.comment_pfx
        ++ i.line_separator ++ i.white_space
    i.statement ++ "(" ++ first_import
      ++ joinSep ("," ++ i.line_separator ++ i.white_space) rest
      ++ (if i.include_trailing_comma then "," else "") ++ ")"

/-- The while loop of `hanging_indent`: append each import to the running
statement (with comments rendered); when the last rendered line plus the three
reserved columns would exceed the limit, emit a backslash continuation and
start a new line indented by `ind`. -/
def hangingAux (ind : String) (ll : Nat) (sep cp : String) (removed : Bool) :
    List String → String → List String → String
  | [], s, _ => s
  | next :: rest, s, cmts =>
    let next_statement := addToLine cmts (s ++ ", " ++ next) removed cp
    if lastLineLen sep next_statement + 3 > ll then
      hangingAux ind ll sep cp removed rest
        (addToLine cmts (s ++ ", \\") removed cp ++ sep ++ ind ++ next) []
    else
      hangingAux ind ll sep cp removed rest next_statement cmts

/-- The `hanging_indent` strategy. -/
def hanging_indent (i : Interface) : String :=
  match i.imports with
  | [] => ""
  | first :: rest =>
    hangingAux i.indent i.line_length i.line_separator i.comment_pfx i.remove_comments
      rest (i.statement ++ first) i.comments

/-- The `vertical_hanging_indent` strategy. -/
def vertical_hanging_indent (i : Interface) : String :=
  i.statement ++ "(" ++ addToLine i.comments "" i.remove_comments i.comment_pfx
    ++ i.line_separator ++ i.indent
    ++ joinSep ("," ++ i.line_separator ++ i.indent) i.imports
    ++ (if i.include_trailing_comma then "," else "")
    ++ i.line_separator ++ ")"

/-- The while loop of the shared grid-packing primitive
`vertical_grid_common`: measure the last physical line of the tentative
statement, reserve one column when further imports remain or a trailing
character is needed, and break to a new indented line on overflow. -/
def vertical_grid_common_aux (ind : String) (ll : Nat) (sep : String) (ntc : Bool) :
    List String → String → String
  | [], s => s
  | next :: rest, s =>
    let next_statement := s ++ ", " ++ next
    let current_line_length := lastLineLen sep next_statement
    let current_line_length :=
      if rest ≠ [] ∨ ntc = true then current_line_length + 1 else current_line_length
    if current_line_length > ll then
      vertical_grid_common_aux ind ll sep ntc rest (s ++ "," ++ sep ++ ind ++ next)
    else
      vertical_grid_common_aux ind ll sep ntc rest next_statement

/-- The shared grid-packing primitive `vertical_grid_common`. -/
def vertical_grid_common (ntc : Bool) (i : Interface) : String :=
  match i.imports with
  | [] => ""
  | first :: rest =>
    let statement :=
      i.statement ++ addToLine i.comments "(" i.remove_comments i.comment_pfx
        ++ i.line_separator ++ i.indent ++ first
    let s := vertical_grid_common_aux i.indent i.line_length i.line_separator ntc rest statement
    if i.include_trailing_comma then s ++ "," else s

/-- The `vertical_grid` strategy. -/
def vertical_grid (i : Interface) : String :=
  vertical_grid_common true i ++ ")"

/-- The `vertical_grid_grouped` strategy. -/
def vertical_grid_grouped (i : Interface) : String :=
  vertical_grid_common true i ++ i.line_separator ++ ")"

/-- The `vertical_grid_grouped_no_comma` strategy. -/
def vertical_grid_grouped_no_comma (i : Interface) : String :=
  vertical_grid_common false i ++ i.line_separator ++ ")"

/-- The `noqa` strategy. -/
def noqa (i : Interface) : String :=
  let retval := i.statement ++ joinSep ", " i.imports
  let comment_str := joinSep " " i.comments
  if ¬ i.comments.isEmpty then
    if retval.length + i.comment_pfx.length + 1 + comment_str.length ≤ i.line_length then
      retval ++ i.comment_pfx ++ " " ++ comment_str
    else if i.comments.contains "NOQA" then
      retval ++ i.comment_pfx ++ " " ++ comment_str
    else
      retval ++ i.comment_pfx ++ " NOQA " ++ comment_str
  else
    if retval.length ≤ i.line_length then retval
    else retval ++ i.comment_pfx ++ " NOQA"

/-- The `_wrap_modes` registry: upper-cased strategy name to strategy
function, in registration order. -/
def _wrap_modes : List (String × (Interface → String)) :=
  [("GRID", grid), ("VERTICAL", vertical), ("HANGING_INDENT", hanging_indent),
   ("VERTICAL_HANGING_INDENT", vertical_hanging_indent),
   ("VERTICAL_GRID", vertical_grid),
   ("VERTICAL_GRID_GROUPED", vertical_grid_grouped),
   ("VERTICAL_GRID_GROUPED_NO_COMMA", vertical_grid_grouped_no_comma),
   ("NOQA", noqa)]

/-- Python `name.upper()` (over the ASCII range relevant to mode names). -/
def strUpper (s : String) : String :=
  String.mk (s.data.map Char.toUpper)

/-- `formatter_from_string`: case-insensitive name lookup in the registry with
fallback to `grid`. -/
def formatter_from_string (name : String) : Interface → String :=
  (_wrap_modes.lookup (strUpper name)).getD grid

/-- Interleave separators and imports: `glueTail [(s1,t1),(s2,t2)] = s1 ++ t1 ++ s2 ++ t2`.
Used to describe the shape of the statement built by the packing loops. -/
def glueTail : List (String × String) → String
  | [] => ""
  | (s, t) :: ps => s ++ t ++ glueTail ps

/-- Recover one import token from a comma-split piece of a packed body: a
piece produced by a same-line separator starts with a single space, a piece
produced by a line break starts with the line separator followed by the
indent. -/
def decodePiece (sepC indC piece : List Char) : List Char :=
  if sepC.isPrefixOf piece then piece.drop (sepC.length + indC.length)
  else piece.drop 1

/-- Recover the import list from the packed body of a grid-style statement by
splitting on commas and stripping the separator residue from each piece. -/
def decodeBody (sepC indC body : List Char) : List String :=
  match splitList [','] body with
  | [] => []
  | p :: ps => String.mk p :: ps.map (fun q => String.mk (decodePiece sepC indC q))

/-- Decoder for `vertical_grid` output: strip the `statement ++ "(" ++
line_separator ++ indent` prefix and the closing parenthesis, then decode the
body. -/
def decodeVG (stmt sep ind out : String) : List String :=
  decodeBody sep.data ind.data
    ((out.data.drop (stmt.data.length + 1 + sep.data.length + ind.data.length)).dropLast)

/-- Decoder for the grouped variants: like `decodeVG` but the closing suffix
is `line_separator ++ ")"`. -/
def decodeVGG (stmt sep ind out : String) : List String :=
  let rest := out.data.drop (stmt.data.length + 1 + sep.data.length + ind.data.length)
  decodeBody sep.data ind.data (rest.take (rest.length - (sep.data.length + 1)))

/-- Decoder for `grid` output: strip the `statement ++ "("` prefix and the
closing parenthesis, then decode the body (continuation lines are indented by
`white_space`). -/
def decodeGrid (stmt sep ws out : String) : List String :=
  decodeBody sep.data ws.data ((out.data.drop (stmt.data.length + 1)).dropLast)

/-- The per-line guarantee of the grid-packing family: the line fits in the
limit, or it carries a single import token after the indent, possibly closed
by a comma or the final parenthesis. -/
def gridLineOk (ll : Nat) (indC : List Char) (T : List String) (l : List Char) : Prop :=
  l.length ≤ ll ∨
    ∃ t ∈ T, l = indC ++ t.data ∨ l = indC ++ t.data ++ [','] ∨ l = indC ++ t.data ++ [')']

/-- Concrete input for the claimed `vertical_hanging_indent` example. -/
def iExample7 : Interface :=
  { statement := "from a import", imports := ["b", "c", "d"], white_space := " ",
    indent := "    ", line_length := 20, comments := [], line_separator := "\n",
    comment_pfx := " #", include_trailing_comma := false, remove_comments := false }

/-- Concrete input refuting the universal line-length claim: `vertical` with a
long statement head and a tiny limit. -/
def iLong1 : Interface :=
  { statement := "from mod import ", imports := ["a", "b"], white_space := " ",
    indent := "    ", line_length := 4, comments := [], line_separator := "\n",
    comment_pfx := " #", include_trailing_comma := false, remove_comments := false }

/-- Concrete vertical-grid input whose line-length guarantee is witnessed. -/
def iFit1 : Interface :=
  { statement := "from a import ", imports := ["bb", "cc", "dd"], white_space := " ",
    indent := "    ", line_length := 12, comments := [], line_separator := "\n",
    comment_pfx := " #", include_trailing_comma := false, remove_comments := false }

/-- First component of the output collision refuting universal recovery:
one import token containing a comma and a space. -/
def iCollide1 : Interface :=
  { statement := "from m import ", imports := ["a, b"], white_space := " ",
    indent := "    ", line_length := 79, comments := [], line_separator := "\n",
    comment_pfx := " #", include_trailing_comma := false, remove_comments := false }

/-- Second component of the output collision: two plain import tokens. -/
def iCollide2 : Interface :=
  { statement := "from m import ", imports := ["a", "b"], white_space := " ",
    indent := "    ", line_length := 79, comments := [], line_separator := "\n",
    comment_pfx := " #", include_trailing_comma := false, remove_comments := false }

/-- Concrete input witnessing the amended recovery claim. -/
def iRecover : Interface :=
  { statement := "from pkg import ", imports := ["alpha", "beta", "gamma"],
    white_space := " ", indent := "    ", line_length := 24, comments := [],
    line_separator := "\n", comment_pfx := " #", include_trailing_comma := false,
    remove_comments := false }

/-- Concrete `noqa` input with comments and comment removal requested: the
comments are rendered anyway. -/
def iNoqaRC : Interface :=
  { statement := "import x", imports := [], white_space := " ", indent := "    ",
    line_length := 100, comments := ["c"], line_separator := "\n",
    comment_pfx := " #", include_trailing_comma := false, remove_comments := true }

/-- Concrete input witnessing the amended comment-removal claim. -/
def iRemove : Interface :=
  { statement := "from a import ", imports := ["b", "c"], white_space := " ",
    indent := "    ", line_length := 10, comments := ["keep"], line_separator := "\n",
    comment_pfx := " #", include_trailing_comma := false, remove_comments := true }

/-- Concrete input with an empty import list for the vertical-grid family. -/
def iEmptyVG : Interface :=
  { statement := "from a import ", imports := [], white_space := " ", indent := "    ",
    line_length := 20, comments := [], line_separator := "\n", comment_pfx := " #",
    include_trailing_comma := false, remove_comments := false }

/-- Concrete input with an empty import list for the guarded strategies. -/
def iEmptyGuard : Interface :=
  { statement := "from b import ", imports := [], white_space := " ", indent := "    ",
    line_length := 20, comments := [], line_separator := "\n", comment_pfx := " #",
    include_trailing_comma := false, remove_comments := false }

/-- Concrete `noqa` input whose statement itself contains the marker text, so
the output carries two marker occurrences. -/
def iNoqa2 : Interface :=
  { statement := "NOQA ", imports := [], white_space := " ", indent := "    ",
    line_length := 0, comments := ["c"], line_separator := "\n", comment_pfx := " #",
    include_trailing_comma := false, remove_comments := false }

/-- Concrete overflowing `noqa` input free of spurious marker text. -/
def iNoqa1 : Interface :=
  { statement := "from a import ", imports := ["b", "c"], white_space := " ",
    indent := "    ", line_length := 10, comments := ["wat"], line_separator := "\n",
    comment_pfx := " #", include_trailing_comma := false, remove_comments := false }

/-! ### Basic string and list helper lemmas -/

theorem smk_data (s : String) : String.mk s.data = s := rfl

theorem sappend_data (a b : String) : (a ++ b).data = a.data ++ b.data :=
  String.data_append a b

theorem sappend_nil (s : String) : s ++ "" = s :=
  String.ext (by simp [String.data_append])

theorem slength_data (s : String) : s.length = s.data.length := rfl

theorem splitListF_ne_nil (sepp : List Char) (f : Nat) (l : List Char) :
    splitListF sepp f l ≠ [] := by
  cases f with
  | zero => cases l <;> simp [splitListF]
  | succ f =>
    cases l with
    | nil => simp [splitListF]
    | cons c rest =>
      simp only [splitListF]
      split
      · simp
      · split <;> simp

theorem splitList_ne_nil (sepp l : List Char) : splitList sepp l ≠ [] :=
  splitListF_ne_nil sepp l.length l

theorem splitList_nil (sepp : List Char) : splitList sepp [] = [[]] := rfl

theorem splitList_cons (c x : Char) (l : List Char) :
    splitList [c] (x :: l) =
      if x = c then [] :: splitList [c] l
      else
        match splitList [c] l with
        | [] => [[x]]
        | p :: ps => (x :: p) :: ps := by
  show splitListF [c] (l.length + 1) (x :: l) = _
  simp only [splitListF, List.isEmpty, List.isPrefixOf, Bool.not_false, Bool.and_true,
    Bool.true_and, List.drop]
  by_cases hx : x = c
  · subst hx
    simp [splitList]
  · have : (c == x) = false := by simp [beq_iff_eq]; exact fun e => hx e.symm
    simp [this, hx, splitList]

theorem splitList_cons_self (c : Char) (l : List Char) :
    splitList [c] (c :: l) = [] :: splitList [c] l := by
  rw [splitList_cons]; simp

theorem splitList_of_not_mem {c : Char} {l : List Char} (h : c ∉ l) :
    splitList [c] l = [l] := by
  induction l with
  | nil => rfl
  | cons x xs ih =>
    have hx : ¬ x = c := fun e => h (e ▸ List.mem_cons_self x xs)
    have hxs : c ∉ xs := fun m => h (List.mem_cons_of_mem x m)
    rw [splitList_cons, if_neg hx, ih hxs]

theorem splitList_append_cons (c : Char) (a b : List Char) :
    splitList [c] (a ++ c :: b) = splitList [c] a ++ splitList [c] b := by
  induction a with
  | nil => simp [splitList_cons_self, splitList_nil]
  | cons x xs ih =>
    by_cases hx : x = c
    · subst hx
      rw [List.cons_append, splitList_cons_self, splitList_cons_self, ih, List.cons_append]
    · rw [List.cons_append, splitList_cons, if_neg hx, splitList_cons, if_neg hx, ih]
      obtain ⟨p, ps, hps⟩ : ∃ p ps, splitList [c] xs = p :: ps := by
        cases hq : splitList [c] xs with
        | nil => exact absurd hq (splitList_ne_nil [c] xs)
        | cons p ps => exact ⟨p, ps, rfl⟩
      rw [hps]
      simp

theorem appendLast_ne_nil (b : List Char) (L : List (List Char)) :
    appendLast b L ≠ [] := by
  cases L with
  | nil => simp [appendLast]
  | cons x xs => cases xs <;> simp [appendLast]

theorem appendLast_cons (b : List Char) (y : List Char) {l : List (List Char)}
    (h : l ≠ []) : appendLast b (y :: l) = y :: appendLast b l := by
  cases l with
  | nil => exact absurd rfl h
  | cons z zs => rfl

theorem appendLast_concat (b x : List Char) (A : List (List Char)) :
    appendLast b (A ++ [x]) = A ++ [x ++ b] := by
  induction A with
  | nil => rfl
  | cons y ys ih =>
    rw [List.cons_append, appendLast_cons b y (by simp), ih, List.cons_append]

theorem splitList_append_of_not_mem (c : Char) (a b : List Char) (h : c ∉ b) :
    splitList [c] (a ++ b) = appendLast b (splitList [c] a) := by
  induction a with
  | nil =>
    rw [List.nil_append, splitList_of_not_mem h, splitList_nil]
    rfl
  | cons x xs ih =>
    by_cases hx : x = c
    · subst hx
      rw [List.cons_append, splitList_cons_self, splitList_cons_self, ih,
        appendLast_cons b [] (splitList_ne_nil [x] xs)]
    · rw [List.cons_append, splitList_cons, if_neg hx, splitList_cons, if_neg hx, ih]
      obtain ⟨p, ps, hps⟩ : ∃ p ps, splitList [c] xs = p :: ps := by
        cases hq : splitList [c] xs with
        | nil => exact absurd hq (splitList_ne_nil [c] xs)
        | cons p ps => exact ⟨p, ps, rfl⟩
      rw [hps]
      cases ps with
      | nil => rfl
      | cons q qs =>
        rw [appendLast_cons b p (by simp), appendLast_cons b (x :: p) (by simp)]

/-! ### Occurrence-counting lemmas -/

theorem isPrefixOf_append_cons_of_not_mem {p : List Char} {c : Char} (hc : c ∉ p) :
    ∀ a b : List Char, p.isPrefixOf (a ++ c :: b) = p.isPrefixOf a := by
  induction p with
  | nil => intro a b; simp [List.isPrefixOf]
  | cons q qs ih =>
    intro a b
    have hq : ¬ q = c := fun e => hc (e ▸ List.mem_cons_self q qs)
    have hqs : c ∉ qs := fun m => hc (List.mem_cons_of_mem q m)
    cases a with
    | nil =>
      simp only [List.nil_append, List.isPrefixOf, List.isPrefixOf_cons_nil]
      have : (q == c) = false := by simp [hq]
      simp [this]
    | cons x xs =>
      simp only [List.cons_append, List.isPrefixOf, List.append_eq]
      rw [ih hqs xs b]

theorem countOcc_append_cons_of_not_mem {p : List Char} {c : Char}
    (hp : p ≠ []) (hc : c ∉ p) (a b : List Char) :
    countOcc p (a ++ c :: b) = countOcc p a + countOcc p b := by
  induction a with
  | nil =>
    obtain ⟨q, qs, rfl⟩ : ∃ q qs, p = q :: qs := by
      cases p with
      | nil => exact absurd rfl hp
      | cons q qs => exact ⟨q, qs, rfl⟩
    have hq : ¬ q = c := fun e => hc (e ▸ List.mem_cons_self q qs)
    have : ((q :: qs).isPrefixOf (c :: b)) = false := by
      simp only [List.isPrefixOf]
      have : (q == c) = false := by simp [hq]
      simp [this]
    simp [countOcc, this]
  | cons x xs ih =>
    simp only [List.cons_append, countOcc, List.append_eq, ih]
    have hpre : p.isPrefixOf (x :: (xs ++ c :: b)) = p.isPrefixOf (x :: xs) :=
      isPrefixOf_append_cons_of_not_mem hc (x :: xs) b
    simp only [hpre]
    ring

/-! ### The comment attacher under removal, and empty comment lists -/

theorem addToLine_removed (cmts : List String) (line : String) (cp : String) :
    addToLine cmts line true cp = line := rfl

theorem addToLine_nil (line : String) (removed : Bool) (cp : String) :
    addToLine [] line removed cp = line := by
  cases removed <;> rfl

theorem snil_append (s : String) : "" ++ s = s :=
  String.ext (by simp [String.data_append])

/-! ### Claim C7: the vertical_hanging_indent example -/

/-- Claim C7: with statement "from a import", imports b, c, d, line length 20,
four-space indent, newline separator, no comments, and no trailing comma, the
vertical_hanging_indent strategy returns exactly
"from a import(\n    b,\n    c,\n    d\n)". -/
theorem C7_vertical_hanging_indent_example :
    vertical_hanging_indent iExample7 = "from a import(\n    b,\n    c,\n    d\n)" := by
  decide

/-! ### Claim C10: hanging_indent ignores include_trailing_comma -/

/-- Claim C10: the output of hanging_indent is identical for any value of the
include_trailing_comma flag; the strategy never reads it. -/
theorem C10_hanging_indent_trailing_comma_independent (i : Interface) (b : Bool) :
    hanging_indent { i with include_trailing_comma := b } = hanging_indent i := by
  cases i
  rfl

/-! ### Claim C4: empty import lists -/

/-- Claim C4 counterexample: with an empty import list, the vertical_grid
family and vertical_hanging_indent do not return the empty string, so the
claim fails for the modes without an explicit emptiness guard. -/
theorem C4_counterexample :
    iEmptyVG.imports = [] ∧ vertical_grid iEmptyVG = ")" ∧
    vertical_grid_grouped iEmptyVG = "\n)" ∧
    vertical_grid_grouped_no_comma iEmptyVG = "\n)" ∧
    vertical_hanging_indent iEmptyVG = "from a import (\n    \n)" := by
  decide

/-- Claim C4 amended: only the strategies with an explicit emptiness guard
(grid, vertical, hanging_indent) return the empty string on an empty import
list; the vertical_grid family returns its closing scaffolding and
vertical_hanging_indent returns a non-empty skeleton. -/
theorem C4_empty_imports (i : Interface) (h : i.imports = []) :
    grid i = "" ∧ vertical i = "" ∧ hanging_indent i = "" ∧
    vertical_grid i = ")" ∧
    vertical_grid_grouped i = i.line_separator ++ ")" ∧
    vertical_grid_grouped_no_comma i = i.line_separator ++ ")" ∧
    vertical_hanging_indent i ≠ "" := by
  refine ⟨by simp [grid, h], by simp [vertical, h], by simp [hanging_indent, h],
    by simp [vertical_grid, vertical_grid_common, h, snil_append],
    by simp [vertical_grid_grouped, vertical_grid_common, h, snil_append],
    by simp [vertical_grid_grouped_no_comma, vertical_grid_common, h, snil_append], ?_⟩
  intro hEq
  have h2 := congrArg String.data hEq
  simp [vertical_hanging_indent, String.data_append] at h2

/-- Claim C4 witness: the amended statement evaluated at a concrete record. -/
theorem C4_witness :
    iEmptyGuard.imports = [] ∧
    (grid iEmptyGuard = "" ∧ vertical iEmptyGuard = "" ∧ hanging_indent iEmptyGuard = "" ∧
      vertical_grid iEmptyGuard = ")" ∧
      vertical_grid_grouped iEmptyGuard = iEmptyGuard.line_separator ++ ")" ∧
      vertical_grid_grouped_no_comma iEmptyGuard = iEmptyGuard.line_separator ++ ")" ∧
      vertical_hanging_indent iEmptyGuard ≠ "") :=
  ⟨rfl, C4_empty_imports iEmptyGuard rfl⟩

/-! ### Claim C1 counterexample: the universal line-length bound fails -/

/-- Claim C1 counterexample: in the vertical mode (which is not noqa), with a
non-empty import list, the output contains a physical line that exceeds the
line length and contains internal spaces, so it is not a single unsplittable
token. -/
theorem C1_counterexample :
    "from mod import (a,".data ∈ splitList ['\n'] (vertical iLong1).data ∧
    iLong1.line_length < "from mod import (a,".length ∧
    ' ' ∈ "from mod import (a,".data := by
  decide

/-! ### Claim C2 counterexample: exact recovery fails in general -/

/-- Claim C2 counterexample: two different import lists (one containing a
token with an embedded comma and space) produce identical vertical_grid
output, so no stripping procedure can recover the original import list for
every input. -/
theorem C2_counterexample :
    vertical_grid iCollide1 = vertical_grid iCollide2 ∧
    iCollide1.imports ≠ iCollide2.imports := by
  decide

/-! ### Claim C3 counterexample: noqa ignores remove_comments -/

/-- Claim C3 counterexample: with remove_comments set, the noqa strategy still
renders the comment prefix and the comment text. -/
theorem C3_counterexample :
    iNoqaRC.remove_comments = true ∧ noqa iNoqaRC = "import x # c" ∧
    countOcc iNoqaRC.comment_pfx.data (noqa iNoqaRC).data = 1 := by
  decide

/-! ### Claim C5 counterexample: the marker count is not always one -/

/-- Claim C5 counterexample: an overflowing noqa input with comments, none of
which is the literal marker, whose statement already contains the marker text:
the output contains two occurrences of NOQA. -/
theorem C5_counterexample :
    (¬ iNoqa2.comments.isEmpty) ∧
    iNoqa2.line_length <
      (iNoqa2.statement ++ joinSep ", " iNoqa2.imports).length +
        iNoqa2.comment_pfx.length + 1 + (joinSep " " iNoqa2.comments).length ∧
    "NOQA" ∉ iNoqa2.comments ∧
    countOcc "NOQA".data (noqa iNoqa2).data = 2 := by
  decide

/-! ### Claim C8: identifier resolution -/

/-- Claim C9: formatter_from_string is a total function, its result depends
only on the upper-cased name (case-insensitive matching), and any name whose
upper-cased form is not registered falls back to the grid strategy. -/
theorem C9_formatter_from_string_total :
    (∀ a b : String, strUpper a = strUpper b →
      formatter_from_string a = formatter_from_string b) ∧
    (∀ name : String, _wrap_modes.lookup (strUpper name) = none →
      formatter_from_string name = grid) ∧
    formatter_from_string "vertical" = vertical ∧
    formatter_from_string "Vertical_Grid" = vertical_grid ∧
    formatter_from_string "no_such_mode" = grid := by
  refine ⟨?_, ?_, rfl, rfl, rfl⟩
  · intro a b h
    unfold formatter_from_string
    rw [h]
  · intro name h
    unfold formatter_from_string
    rw [h]
    rfl

/-- Claim C9 witness: case-insensitive agreement and the grid fallback at
concrete names. -/
theorem C9_witness :
    formatter_from_string "HANGING_indent" = formatter_from_string "hanging_INDENT" ∧
    formatter_from_string "gridlock" = grid :=
  ⟨C9_formatter_from_string_total.1 "HANGING_indent" "hanging_INDENT" rfl,
   C9_formatter_from_string_total.2.1 "gridlock" rfl⟩

/-! ### Claim C6: the packing step of the grid primitive -/

/-- Claim C6: in the shared grid-packing loop, the projected length for the
next import is the last-physical-line length of statement plus comma-space
plus import, incremented by exactly one precisely when further imports remain
or a trailing character is needed; the import is broken onto a new indented
line exactly when this projected length strictly exceeds the line length, and
appended on the current line otherwise. -/
theorem C6_grid_packing_step (ind : String) (ll : Nat) (sep : String) (ntc : Bool)
    (next : String) (rest : List String) (s : String) :
    (lastLineLen sep (s ++ ", " ++ next) + (if rest ≠ [] ∨ ntc = true then 1 else 0) > ll →
      vertical_grid_common_aux ind ll sep ntc (next :: rest) s =
        vertical_grid_common_aux ind ll sep ntc rest (s ++ "," ++ sep ++ ind ++ next)) ∧
    (lastLineLen sep (s ++ ", " ++ next) + (if rest ≠ [] ∨ ntc = true then 1 else 0) ≤ ll →
      vertical_grid_common_aux ind ll sep ntc (next :: rest) s =
        vertical_grid_common_aux ind ll sep ntc rest (s ++ ", " ++ next)) := by
  have hstep : vertical_grid_common_aux ind ll sep ntc (next :: rest) s =
      if (if rest ≠ [] ∨ ntc = true then lastLineLen sep (s ++ ", " ++ next) + 1
          else lastLineLen sep (s ++ ", " ++ next)) > ll then
        vertical_grid_common_aux ind ll sep ntc rest (s ++ "," ++ sep ++ ind ++ next)
      else vertical_grid_common_aux ind ll sep ntc rest (s ++ ", " ++ next) := rfl
  constructor
  · intro h
    rw [hstep]
    by_cases hP : rest ≠ [] ∨ ntc = true
    · rw [if_pos hP] at h ⊢
      rw [if_pos h]
    · rw [if_neg hP] at h ⊢
      rw [if_pos (by omega : lastLineLen sep (s ++ ", " ++ next) > ll)]
  · intro h
    rw [hstep]
    by_cases hP : rest ≠ [] ∨ ntc = true
    · rw [if_pos hP] at h ⊢
      rw [if_neg (by omega : ¬ lastLineLen sep (s ++ ", " ++ next) + 1 > ll)]
    · rw [if_neg hP] at h ⊢
      rw [if_neg (by omega : ¬ lastLineLen sep (s ++ ", " ++ next) > ll)]

/-- Claim C6 witness: the step equation at concrete inputs, in both the
overflow and the fitting case. -/
theorem C6_witness :
    vertical_grid_common_aux "    " 10 "\n" true ["ccc"] "from a import (\n    bbbb" =
      vertical_grid_common_aux "    " 10 "\n" true []
        ("from a import (\n    bbbb" ++ "," ++ "\n" ++ "    " ++ "ccc") ∧
    vertical_grid_common_aux "    " 30 "\n" true ["ccc"] "from a import (\n    bbbb" =
      vertical_grid_common_aux "    " 30 "\n" true []
        ("from a import (\n    bbbb" ++ ", " ++ "ccc") :=
  ⟨(C6_grid_packing_step "    " 10 "\n" true "ccc" [] "from a import (\n    bbbb").1
      (by decide),
   (C6_grid_packing_step "    " 30 "\n" true "ccc" [] "from a import (\n    bbbb").2
      (by decide)⟩

/-! ### Claim C3: comment removal -/

theorem gridAux_removed (ws : String) (ll : Nat) (sep cp : String) :
    ∀ (rest : List String) (s : String) (cmts : List String),
      gridAux ws ll sep cp true rest s cmts = gridAux ws ll sep "" true rest s [] := by
  intro rest
  induction rest with
  | nil => intro s cmts; rfl
  | cons next rest ih =>
    intro s cmts
    simp only [gridAux, addToLine_removed]
    by_cases h : lastLineLen sep (s ++ ", " ++ next) + 1 > ll
    · rw [if_pos h, if_pos h, ih]
    · rw [if_neg h, if_neg h, ih _ cmts]

theorem hangingAux_removed (ind : String) (ll : Nat) (sep cp : String) :
    ∀ (rest : List String) (s : String) (cmts : List String),
      hangingAux ind ll sep cp true rest s cmts = hangingAux ind ll sep "" true rest s [] := by
  intro rest
  induction rest with
  | nil => intro s cmts; rfl
  | cons next rest ih =>
    intro s cmts
    simp only [hangingAux, addToLine_removed]
    by_cases h : lastLineLen sep (s ++ ", " ++ next) + 3 > ll
    · rw [if_pos h, if_pos h, ih]
    · rw [if_neg h, if_neg h, ih _ cmts]

/-- Claim C3 amended: for every wrap mode except noqa, when remove_comments is
set the output coincides with the output on the same input with the comment
list emptied and the comment prefix erased; in particular no comment data
influences the result. The noqa mode ignores remove_comments and renders its
comments regardless. -/
theorem C3_remove_comments (i : Interface) (h : i.remove_comments = true) :
    grid i = grid { i with comments := [], comment_pfx := "" } ∧
    vertical i = vertical { i with comments := [], comment_pfx := "" } ∧
    hanging_indent i = hanging_indent { i with comments := [], comment_pfx := "" } ∧
    vertical_hanging_indent i =
      vertical_hanging_indent { i with comments := [], comment_pfx := "" } ∧
    vertical_grid i = vertical_grid { i with comments := [], comment_pfx := "" } ∧
    vertical_grid_grouped i =
      vertical_grid_grouped { i with comments := [], comment_pfx := "" } ∧
    vertical_grid_grouped_no_comma i =
      vertical_grid_grouped_no_comma { i with comments := [], comment_pfx := "" } := by
  obtain ⟨st, imp, ws, ind, ll, cm, sep, cp, tc, rc⟩ := i
  dsimp only at h
  subst h
  refine ⟨?_, ?_, ?_, ?_, ?_, ?_, ?_⟩
  · cases imp with
    | nil => rfl
    | cons first rest =>
      simp only [grid]
      rw [gridAux_removed]
  · cases imp with
    | nil => rfl
    | cons first rest => simp [vertical, addToLine_removed]
  · cases imp with
    | nil => rfl
    | cons first rest =>
      simp only [hanging_indent]
      rw [hangingAux_removed]
  · simp [vertical_hanging_indent, addToLine_removed]
  · cases imp with
    | nil => rfl
    | cons first rest => simp [vertical_grid, vertical_grid_common, addToLine_removed]
  · cases imp with
    | nil => rfl
    | cons first rest =>
      simp [vertical_grid_grouped, vertical_grid_common, addToLine_removed]
  · cases imp with
    | nil => rfl
    | cons first rest =>
      simp [vertical_grid_grouped_no_comma, vertical_grid_common, addToLine_removed]

/-- Claim C3 witness: the amended statement at a concrete record with
remove_comments set and a pending comment. -/
theorem C3_witness :
    iRemove.remove_comments = true ∧
    (grid iRemove = grid { iRemove with comments := [], comment_pfx := "" } ∧
      vertical iRemove = vertical { iRemove with comments := [], comment_pfx := "" } ∧
      hanging_indent iRemove =
        hanging_indent { iRemove with comments := [], comment_pfx := "" } ∧
      vertical_hanging_indent iRemove =
        vertical_hanging_indent { iRemove with comments := [], comment_pfx := "" } ∧
      vertical_grid iRemove = vertical_grid { iRemove with comments := [], comment_pfx := "" } ∧
      vertical_grid_grouped iRemove =
        vertical_grid_grouped { iRemove with comments := [], comment_pfx := "" } ∧
      vertical_grid_grouped_no_comma iRemove =
        vertical_grid_grouped_no_comma { iRemove with comments := [], comment_pfx := "" }) :=
  ⟨rfl, C3_remove_comments iRemove rfl⟩

/-! ### Claim C5: the noqa marker -/

/-- Claim C5 amended: for a noqa input with comments whose combined rendering
overflows the line length, where no comment token is the literal marker and
the marker text occurs neither in the statement-plus-imports-plus-prefix text
nor in the joined comment text, the output contains exactly one occurrence of
the substring NOQA. -/
theorem C5_noqa_marker (i : Interface)
    (h1 : ¬ i.comments.isEmpty)
    (h2 : i.line_length <
      (i.statement ++ joinSep ", " i.imports).length + i.comment_pfx.length + 1 +
        (joinSep " " i.comments).length)
    (h3 : "NOQA" ∉ i.comments)
    (h4 : countOcc "NOQA".data (i.statement ++ joinSep ", " i.imports ++ i.comment_pfx).data = 0)
    (h5 : countOcc "NOQA".data (joinSep " " i.comments).data = 0) :
    countOcc "NOQA".data (noqa i).data = 1 := by
  have hp : ("NOQA".data : List Char) ≠ [] := by decide
  have hc : ' ' ∉ "NOQA".data := by decide
  have hcontains : i.comments.contains "NOQA" = false := by simpa using h3
  have hne : noqa i =
      (i.statement ++ joinSep ", " i.imports) ++ i.comment_pfx ++ " NOQA " ++
        joinSep " " i.comments := by
    simp only [noqa]
    rw [if_pos h1, if_neg (by omega :
      ¬ (i.statement ++ joinSep ", " i.imports).length + i.comment_pfx.length + 1 +
        (joinSep " " i.comments).length ≤ i.line_length)]
    rw [hcontains]
    simp
  rw [hne, show (" NOQA " : String) = " " ++ "NOQA" ++ " " from rfl]
  have hd : ((i.statement ++ joinSep ", " i.imports) ++ i.comment_pfx ++
        (" " ++ "NOQA" ++ " ") ++ joinSep " " i.comments).data =
      (i.statement ++ joinSep ", " i.imports ++ i.comment_pfx).data ++
        ' ' :: ("NOQA".data ++ ' ' :: (joinSep " " i.comments).data) := by
    simp [String.data_append, List.append_assoc]
  rw [hd, countOcc_append_cons_of_not_mem hp hc, h4,
    countOcc_append_cons_of_not_mem hp hc, h5,
    show countOcc "NOQA".data "NOQA".data = 1 from by decide]

/-- Claim C5 witness: the amended statement at a concrete overflowing input
free of spurious marker text. -/
theorem C5_witness :
    (¬ iNoqa1.comments.isEmpty) ∧
    iNoqa1.line_length <
      (iNoqa1.statement ++ joinSep ", " iNoqa1.imports).length +
        iNoqa1.comment_pfx.length + 1 + (joinSep " " iNoqa1.comments).length ∧
    "NOQA" ∉ iNoqa1.comments ∧
    countOcc "NOQA".data (noqa iNoqa1).data = 1 :=
  ⟨by decide, by decide, by decide,
    C5_noqa_marker iNoqa1 (by decide) (by decide) (by decide) (by decide) (by decide)⟩

/-! ### Claim C2: recovery of the import list from grid-style output -/

theorem vgcAux_shape (ind : String) (ll : Nat) (sep : String) (ntc : Bool) :
    ∀ (rest : List String) (s : String),
      ∃ ps : List (String × String),
        ps.map Prod.snd = rest ∧
        (∀ p ∈ ps, p.1 = ", " ∨ p.1 = "," ++ sep ++ ind) ∧
        vertical_grid_common_aux ind ll sep ntc rest s = s ++ glueTail ps := by
  intro rest
  induction rest with
  | nil =>
    intro s
    exact ⟨[], rfl, by simp, (sappend_nil s).symm⟩
  | cons next rest ih =>
    intro s
    simp only [vertical_grid_common_aux]
    by_cases hcond :
        (if rest ≠ [] ∨ ntc = true then lastLineLen sep (s ++ ", " ++ next) + 1
          else lastLineLen sep (s ++ ", " ++ next)) > ll
    · rw [if_pos hcond]
      obtain ⟨ps, h1, h2, h3⟩ := ih (s ++ "," ++ sep ++ ind ++ next)
      refine ⟨("," ++ sep ++ ind, next) :: ps, by simp [h1], ?_, ?_⟩
      · intro p hp
        rcases List.mem_cons.mp hp with h | h
        · right; rw [h]
        · exact h2 p h
      · rw [h3]
        simp [glueTail, String.append_assoc]
    · rw [if_neg hcond]
      obtain ⟨ps, h1, h2, h3⟩ := ih (s ++ ", " ++ next)
      refine ⟨(", ", next) :: ps, by simp [h1], ?_, ?_⟩
      · intro p hp
        rcases List.mem_cons.mp hp with h | h
        · left; rw [h]
        · exact h2 p h
      · rw [h3]
        simp [glueTail, String.append_assoc]

theorem gridWrapLines_single (ws : String) (ll : Nat) (next : String)
    (h : ' ' ∉ next.data) : gridWrapLines ws ll next = [ws ++ next] := by
  unfold gridWrapLines
  rw [splitList_of_not_mem h]
  simp [gridWrapAux, smk_data]

theorem gridAux_shape (ws : String) (ll : Nat) (sep cp : String) (removed : Bool) :
    ∀ (rest : List String) (s : String),
      (∀ t ∈ rest, ' ' ∉ t.data) →
      ∃ ps : List (String × String),
        ps.map Prod.snd = rest ∧
        (∀ p ∈ ps, p.1 = ", " ∨ p.1 = "," ++ sep ++ ws) ∧
        gridAux ws ll sep cp removed rest s [] = s ++ glueTail ps := by
  intro rest
  induction rest with
  | nil =>
    intro s _
    exact ⟨[], rfl, by simp, (sappend_nil s).symm⟩
  | cons next rest ih =>
    intro s hsp
    have hnext : ' ' ∉ next.data := hsp next (List.mem_cons_self next rest)
    have hrest : ∀ t ∈ rest, ' ' ∉ t.data := fun t ht => hsp t (List.mem_cons_of_mem next ht)
    simp only [gridAux, addToLine_nil]
    by_cases hcond : lastLineLen sep (s ++ ", " ++ next) + 1 > ll
    · rw [if_pos hcond]
      rw [gridWrapLines_single ws ll next hnext]
      obtain ⟨ps, h1, h2, h3⟩ := ih (s ++ "," ++ sep ++ joinSep sep [ws ++ next]) hrest
      refine ⟨("," ++ sep ++ ws, next) :: ps, by simp [h1], ?_, ?_⟩
      · intro p hp
        rcases List.mem_cons.mp hp with h | h
        · right; rw [h]
        · exact h2 p h
      · rw [h3]
        simp [glueTail, joinSep, String.append_assoc]
    · rw [if_neg hcond]
      obtain ⟨ps, h1, h2, h3⟩ := ih (s ++ ", " ++ next) hrest
      refine ⟨(", ", next) :: ps, by simp [h1], ?_, ?_⟩
      · intro p hp
        rcases List.mem_cons.mp hp with h | h
        · left; rw [h]
        · exact h2 p h
      · rw [h3]
        simp [glueTail, String.append_assoc]

theorem isPrefixOf_self_append (l r : List Char) : l.isPrefixOf (l ++ r) = true := by
  induction l with
  | nil => simp [List.isPrefixOf]
  | cons x xs ih => simp [List.isPrefixOf, ih]

theorem splitList_glue (sep ind : String) (hsc : ',' ∉ sep.data) (hic : ',' ∉ ind.data) :
    ∀ (ps : List (String × String)) (first : String),
      ',' ∉ first.data →
      (∀ p ∈ ps, (p.1 = ", " ∨ p.1 = "," ++ sep ++ ind) ∧ ',' ∉ p.2.data) →
      splitList [','] ((first ++ glueTail ps).data) =
        first.data :: ps.map (fun p => p.1.data.drop 1 ++ p.2.data) := by
  intro ps
  induction ps with
  | nil =>
    intro first h1 _
    rw [show glueTail [] = "" from rfl, sappend_nil, splitList_of_not_mem h1]
    rfl
  | cons p ps ih =>
    intro first h1 h2
    obtain ⟨sp, t⟩ := p
    obtain ⟨hsp, ht⟩ := h2 (sp, t) (List.mem_cons_self _ _)
    have h2' : ∀ q ∈ ps, (q.1 = ", " ∨ q.1 = "," ++ sep ++ ind) ∧ ',' ∉ q.2.data :=
      fun q hq => h2 q (List.mem_cons_of_mem _ hq)
    rcases hsp with hsp | hsp
    · subst hsp
      have hkey : ((first ++ glueTail ((", ", t) :: ps)).data) =
          first.data ++ ',' :: ((" " ++ t ++ glueTail ps)).data := by
        simp [glueTail, String.data_append, List.append_assoc]
      rw [hkey, splitList_append_cons, splitList_of_not_mem h1,
        ih (" " ++ t)
          (by
            rw [String.data_append]
            intro hmem
            rcases List.mem_append.mp hmem with h | h
            · simp at h
            · exact ht h)
          h2']
      simp [String.data_append]
    · subst hsp
      have hkey : ((first ++ glueTail (("," ++ sep ++ ind, t) :: ps)).data) =
          first.data ++ ',' :: ((String.mk (sep.data ++ ind.data) ++ t ++ glueTail ps)).data := by
        simp [glueTail, String.data_append, List.append_assoc]
      rw [hkey, splitList_append_cons, splitList_of_not_mem h1,
        ih (String.mk (sep.data ++ ind.data) ++ t)
          (by
            rw [String.data_append]
            intro hmem
            rcases List.mem_append.mp hmem with h | h
            · rcases List.mem_append.mp h with h2 | h2
              · exact hsc h2
              · exact hic h2
            · exact ht h)
          h2']
      simp [String.data_append, List.append_assoc]

theorem decodeBody_glue (sep ind : String)
    (hsep : ∃ c cs, sep.data = c :: cs ∧ c ≠ ' ')
    (hsc : ',' ∉ sep.data) (hic : ',' ∉ ind.data)
    (ps : List (String × String)) (first : String)
    (h1 : ',' ∉ first.data)
    (h2 : ∀ p ∈ ps, (p.1 = ", " ∨ p.1 = "," ++ sep ++ ind) ∧ ',' ∉ p.2.data) :
    decodeBody sep.data ind.data ((first ++ glueTail ps).data) = first :: ps.map Prod.snd := by
  obtain ⟨c, cs, hcs, hcne⟩ := hsep
  unfold decodeBody
  rw [splitList_glue sep ind hsc hic ps first h1 h2]
  dsimp only
  rw [smk_data]
  congr 1
  rw [List.map_map]
  apply List.map_congr_left
  intro p hp
  rcases (h2 p hp).1 with hsp | hsp
  · have hpiece : p.1.data.drop 1 ++ p.2.data = ' ' :: p.2.data := by
      rw [hsp]; rfl
    simp only [Function.comp_apply, hpiece, decodePiece]
    have hnp : sep.data.isPrefixOf (' ' :: p.2.data) = false := by
      rw [hcs]
      simp only [List.isPrefixOf]
      have : (c == ' ') = false := by simp [hcne]
      simp [this]
    rw [hnp]
    simp [smk_data]
  · have hpiece : p.1.data.drop 1 ++ p.2.data = (sep.data ++ ind.data) ++ p.2.data := by
      rw [hsp]
      simp [String.data_append, List.append_assoc]
    simp only [Function.comp_apply, hpiece, decodePiece]
    rw [List.append_assoc, isPrefixOf_self_append, if_pos rfl]
    rw [← List.append_assoc,
      show sep.data.length + ind.data.length = (sep.data ++ ind.data).length by
        simp [List.length_append],
      List.drop_left, smk_data]

theorem vgc_decode_core (ind : String) (ll : Nat) (sep : String) (ntc : Bool)
    (hsep : ∃ c cs, sep.data = c :: cs ∧ c ≠ ' ')
    (hsc : ',' ∉ sep.data) (hic : ',' ∉ ind.data)
    (pfx first : String) (rest : List String)
    (hf : ',' ∉ first.data) (hr : ∀ t ∈ rest, ',' ∉ t.data) :
    ∃ body : String,
      vertical_grid_common_aux ind ll sep ntc rest (pfx ++ first) = pfx ++ body ∧
      decodeBody sep.data ind.data body.data = first :: rest := by
  obtain ⟨ps, hmap, hsp, heq⟩ := vgcAux_shape ind ll sep ntc rest (pfx ++ first)
  refine ⟨first ++ glueTail ps, ?_, ?_⟩
  · rw [heq, String.append_assoc]
  · rw [decodeBody_glue sep ind hsep hsc hic ps first hf ?_, hmap]
    intro p hp
    refine ⟨hsp p hp, ?_⟩
    apply hr
    rw [← hmap]
    exact List.mem_map_of_mem Prod.snd hp

theorem grid_decode_core (ws : String) (ll : Nat) (sep cp : String) (removed : Bool)
    (hsep : ∃ c cs, sep.data = c :: cs ∧ c ≠ ' ')
    (hsc : ',' ∉ sep.data) (hwc : ',' ∉ ws.data)
    (pfx first : String) (rest : List String)
    (hf : ',' ∉ first.data) (hr : ∀ t ∈ rest, ',' ∉ t.data ∧ ' ' ∉ t.data) :
    ∃ body : String,
      gridAux ws ll sep cp removed rest (pfx ++ first) [] = pfx ++ body ∧
      decodeBody sep.data ws.data body.data = first :: rest := by
  obtain ⟨ps, hmap, hsp, heq⟩ :=
    gridAux_shape ws ll sep cp removed rest (pfx ++ first) (fun t ht => (hr t ht).2)
  refine ⟨first ++ glueTail ps, ?_, ?_⟩
  · rw [heq, String.append_assoc]
  · rw [decodeBody_glue sep ws hsep hsc hwc ps first hf ?_, hmap]
    intro p hp
    refine ⟨hsp p hp, ?_⟩
    refine (hr p.2 ?_).1
    rw [← hmap]
    exact List.mem_map_of_mem Prod.snd hp

theorem lparen_data : ("(" : String).data = ['('] := rfl

theorem rparen_data : (")" : String).data = [')'] := rfl

theorem decodeVG_eval (stmt sep ind body : String) :
    decodeVG stmt sep ind (((stmt ++ "(" ++ sep ++ ind) ++ body) ++ ")") =
      decodeBody sep.data ind.data body.data := by
  unfold decodeVG
  congr 1
  have h1 : ((((stmt ++ "(" ++ sep ++ ind) ++ body) ++ ")")).data =
      (stmt ++ "(" ++ sep ++ ind).data ++ (body.data ++ [')']) := by
    simp [String.data_append, List.append_assoc, rparen_data]
  have h2 : (stmt ++ "(" ++ sep ++ ind).data.length =
      stmt.data.length + 1 + sep.data.length + ind.data.length := by
    simp [String.data_append, List.length_append, lparen_data]
    omega
  rw [h1, ← h2, List.drop_left, List.dropLast_concat]

theorem decodeVGG_eval (stmt sep ind body : String) :
    decodeVGG stmt sep ind ((((stmt ++ "(" ++ sep ++ ind) ++ body) ++ sep) ++ ")") =
      decodeBody sep.data ind.data body.data := by
  simp only [decodeVGG]
  congr 1
  have h1 : (((((stmt ++ "(" ++ sep ++ ind) ++ body) ++ sep) ++ ")")).data =
      (stmt ++ "(" ++ sep ++ ind).data ++ (body.data ++ (sep.data ++ [')'])) := by
    simp [String.data_append, List.append_assoc, rparen_data]
  have h2 : (stmt ++ "(" ++ sep ++ ind).data.length =
      stmt.data.length + 1 + sep.data.length + ind.data.length := by
    simp [String.data_append, List.length_append, lparen_data]
    omega
  rw [h1, ← h2, List.drop_left]
  have h3 : (body.data ++ (sep.data ++ [')'])).length - (sep.data.length + 1) =
      body.data.length := by
    simp [List.length_append]
  rw [h3, List.take_left]

theorem decodeGrid_eval (stmt sep ws body : String) :
    decodeGrid stmt sep ws (((stmt ++ "(") ++ body) ++ ")") =
      decodeBody sep.data ws.data body.data := by
  unfold decodeGrid
  congr 1
  have h1 : ((((stmt ++ "(") ++ body) ++ ")")).data =
      (stmt ++ "(").data ++ (body.data ++ [')']) := by
    simp [String.data_append, List.append_assoc, rparen_data]
  have h2 : (stmt ++ "(").data.length = stmt.data.length + 1 := by
    simp [String.data_append, List.length_append, lparen_data]
  rw [h1, ← h2, List.drop_left, List.dropLast_concat]

/-- Claim C2 amended: for the grid and vertical_grid family, provided the
comment list is empty, no trailing comma is requested, the import tokens are
free of commas and spaces, the line separator is non-empty, does not start
with a space and contains no comma, and the indent and white_space contain no
comma: stripping the statement prefix, line breaks, indentation, parentheses
and comma separators from the output (the decode functions below) recovers
exactly the original import list, in order, with no token lost. -/
theorem C2_token_recovery (i : Interface)
    (hcm : i.comments = []) (htc : i.include_trailing_comma = false)
    (himp : i.imports ≠ [])
    (htok : ∀ t ∈ i.imports, ',' ∉ t.data ∧ ' ' ∉ t.data)
    (hsep1 : ∃ c cs, i.line_separator.data = c :: cs ∧ c ≠ ' ')
    (hsc : ',' ∉ i.line_separator.data)
    (hic : ',' ∉ i.indent.data)
    (hwc : ',' ∉ i.white_space.data) :
    decodeGrid i.statement i.line_separator i.white_space (grid i) = i.imports ∧
    decodeVG i.statement i.line_separator i.indent (vertical_grid i) = i.imports ∧
    decodeVGG i.statement i.line_separator i.indent (vertical_grid_grouped i) = i.imports ∧
    decodeVGG i.statement i.line_separator i.indent (vertical_grid_grouped_no_comma i) =
      i.imports := by
  cases hI : i.imports with
  | nil => exact absurd hI himp
  | cons first rest =>
  rw [hI] at htok
  have hf : ',' ∉ first.data := (htok first (List.mem_cons_self first rest)).1
  have hr1 : ∀ t ∈ rest, ',' ∉ t.data :=
    fun t ht => (htok t (List.mem_cons_of_mem first ht)).1
  have hr2 : ∀ t ∈ rest, ',' ∉ t.data ∧ ' ' ∉ t.data :=
    fun t ht => htok t (List.mem_cons_of_mem first ht)
  have hvgcT : ∀ ntc : Bool, ∃ body : String,
      vertical_grid_common ntc i =
        (i.statement ++ "(" ++ i.line_separator ++ i.indent) ++ body ∧
      decodeBody i.line_separator.data i.indent.data body.data = first :: rest := by
    intro ntc
    obtain ⟨body, hb1, hb2⟩ :=
      vgc_decode_core i.indent i.line_length i.line_separator ntc hsep1 hsc hic
        (i.statement ++ "(" ++ i.line_separator ++ i.indent) first rest hf hr1
    refine ⟨body, ?_, hb2⟩
    have hstep : vertical_grid_common ntc i =
        vertical_grid_common_aux i.indent i.line_length i.line_separator ntc rest
          ((i.statement ++ "(" ++ i.line_separator ++ i.indent) ++ first) := by
      simp [vertical_grid_common, hI, hcm, htc, addToLine_nil, String.append_assoc]
    rw [hstep, hb1]
  refine ⟨?_, ?_, ?_, ?_⟩
  · obtain ⟨body, hb1, hb2⟩ :=
      grid_decode_core i.white_space i.line_length i.line_separator i.comment_pfx
        i.remove_comments hsep1 hsc hwc (i.statement ++ "(") first rest hf hr2
    have hgrid : grid i = ((i.statement ++ "(") ++ body) ++ ")" := by
      have hstep : grid i =
          gridAux i.white_space i.line_length i.line_separator i.comment_pfx
            i.remove_comments rest ((i.statement ++ "(") ++ first) [] ++ ")" := by
        simp [grid, hI, hcm, htc, sappend_nil, String.append_assoc]
      rw [hstep, hb1]
    rw [hgrid, decodeGrid_eval, hb2]
  · obtain ⟨body, hb1, hb2⟩ := hvgcT true
    have hvg : vertical_grid i =
        (((i.statement ++ "(" ++ i.line_separator ++ i.indent) ++ body)) ++ ")" := by
      show vertical_grid_common true i ++ ")" = _
      rw [hb1]
    rw [hvg, decodeVG_eval, hb2]
  · obtain ⟨body, hb1, hb2⟩ := hvgcT true
    have hvg : vertical_grid_grouped i =
        ((((i.statement ++ "(" ++ i.line_separator ++ i.indent) ++ body)) ++
          i.line_separator) ++ ")" := by
      show vertical_grid_common true i ++ i.line_separator ++ ")" = _
      rw [hb1]
    rw [hvg, decodeVGG_eval, hb2]
  · obtain ⟨body, hb1, hb2⟩ := hvgcT false
    have hvg : vertical_grid_grouped_no_comma i =
        ((((i.statement ++ "(" ++ i.line_separator ++ i.indent) ++ body)) ++
          i.line_separator) ++ ")" := by
      show vertical_grid_common false i ++ i.line_separator ++ ")" = _
      rw [hb1]
    rw [hvg, decodeVGG_eval, hb2]

/-- Claim C2 witness: the amended recovery statement at a concrete record
whose grid output actually wraps. -/
theorem C2_witness :
    iRecover.imports ≠ [] ∧
    (decodeGrid iRecover.statement iRecover.line_separator iRecover.white_space
        (grid iRecover) = iRecover.imports ∧
      decodeVG iRecover.statement iRecover.line_separator iRecover.indent
        (vertical_grid iRecover) = iRecover.imports ∧
      decodeVGG iRecover.statement iRecover.line_separator iRecover.indent
        (vertical_grid_grouped iRecover) = iRecover.imports ∧
      decodeVGG iRecover.statement iRecover.line_separator iRecover.indent
        (vertical_grid_grouped_no_comma iRecover) = iRecover.imports) :=
  ⟨by decide,
    C2_token_recovery iRecover rfl rfl (by decide) (by decide)
      ⟨'\n', [], rfl, by decide⟩ (by decide) (by decide) (by decide)⟩

/-! ### Claim C1: line lengths in the vertical_grid family -/

theorem comma_data : ("," : String).data = [','] := rfl

theorem nl_data : ("\n" : String).data = ['\n'] := rfl

theorem commaspace_nl_free (next : String) (h : '\n' ∉ next.data) :
    '\n' ∉ (", " ++ next).data := by
  rw [String.data_append]
  intro hmem
  rcases List.mem_append.mp hmem with hmem | hmem
  · simp at hmem
  · exact h hmem

theorem vgcAux_lines (T : List String) (ind : String) (ll : Nat) (ntc : Bool)
    (hT : ∀ t ∈ T, '\n' ∉ t.data) (hind : '\n' ∉ ind.data) :
    ∀ (rest : List String) (s : String) (L0 Last : List Char) (Mids : List (List Char)),
      (∀ t ∈ rest, t ∈ T) →
      splitList ['\n'] s.data = L0 :: (Mids ++ [Last]) →
      (∀ l ∈ Mids, l.length ≤ ll ∨ ∃ t ∈ T, l = ind.data ++ t.data ++ [',']) →
      (Last.length + (if rest = [] then (if ntc then 1 else 0) else 1) ≤ ll ∨
        ∃ t ∈ T, Last = ind.data ++ t.data) →
      ∃ (Mids2 : List (List Char)) (Last2 : List Char),
        splitList ['\n'] (vertical_grid_common_aux ind ll "\n" ntc rest s).data =
          L0 :: (Mids2 ++ [Last2]) ∧
        (∀ l ∈ Mids2, l.length ≤ ll ∨ ∃ t ∈ T, l = ind.data ++ t.data ++ [',']) ∧
        (Last2.length + (if ntc then 1 else 0) ≤ ll ∨ ∃ t ∈ T, Last2 = ind.data ++ t.data) := by
  intro rest
  induction rest with
  | nil =>
    intro s L0 Last Mids _ hS hMid hLast
    refine ⟨Mids, Last, hS, hMid, ?_⟩
    simpa using hLast
  | cons next r ih =>
    intro s L0 Last Mids hmem hS hMid hLast
    have hnextT : next ∈ T := hmem next (List.mem_cons_self next r)
    have hrT : ∀ t ∈ r, t ∈ T := fun t ht => hmem t (List.mem_cons_of_mem next ht)
    have hnext : '\n' ∉ next.data := hT next hnextT
    have hbsfree : '\n' ∉ (", " ++ next).data := commaspace_nl_free next hnext
    have hbs : (s ++ ", " ++ next).data = s.data ++ (", " ++ next).data := by
      simp [String.data_append]
    have hsplit_ns : splitList ['\n'] (s ++ ", " ++ next).data =
        L0 :: (Mids ++ [Last ++ (", " ++ next).data]) := by
      rw [hbs, splitList_append_of_not_mem '\n' s.data _ hbsfree, hS,
        appendLast_cons _ _ (by simp), appendLast_concat]
    have hlll : lastLineLen "\n" (s ++ ", " ++ next) =
        (Last ++ (", " ++ next).data).length := by
      unfold lastLineLen
      rw [nl_data, hsplit_ns,
        show L0 :: (Mids ++ [Last ++ (", " ++ next).data]) =
          (L0 :: Mids) ++ [Last ++ (", " ++ next).data] from rfl,
        List.getLastD_concat]
    simp only [vertical_grid_common_aux]
    by_cases hcond :
        (if r ≠ [] ∨ ntc = true then lastLineLen "\n" (s ++ ", " ++ next) + 1
          else lastLineLen "\n" (s ++ ", " ++ next)) > ll
    · rw [if_pos hcond]
      have hBfree : '\n' ∉ ind.data ++ next.data := by
        intro hmem2
        rcases List.mem_append.mp hmem2 with h | h
        · exact hind h
        · exact hnext h
      have hs'd : (s ++ "," ++ "\n" ++ ind ++ next).data =
          (s.data ++ [',']) ++ '\n' :: (ind.data ++ next.data) := by
        simp [String.data_append, List.append_assoc, comma_data, nl_data]
      have hsplit' : splitList ['\n'] (s ++ "," ++ "\n" ++ ind ++ next).data =
          L0 :: ((Mids ++ [Last ++ [',']]) ++ [ind.data ++ next.data]) := by
        rw [hs'd, splitList_append_cons,
          splitList_append_of_not_mem '\n' s.data [','] (by decide), hS,
          splitList_of_not_mem hBfree,
          appendLast_cons _ _ (by simp), appendLast_concat]
        simp
      refine ih (s ++ "," ++ "\n" ++ ind ++ next) L0 (ind.data ++ next.data)
        (Mids ++ [Last ++ [',']]) hrT hsplit' ?_ ?_
      · intro l hl
        rcases List.mem_append.mp hl with hl | hl
        · exact hMid l hl
        · rcases List.mem_singleton.mp hl with rfl
          rcases hLast with hlen | ⟨t, ht, rfl⟩
          · left
            simp only [List.length_append, List.length_singleton]
            have : ¬ (next :: r = []) := by simp
            rw [if_neg this] at hlen
            omega
          · right
            exact ⟨t, ht, by simp [List.append_assoc]⟩
      · right
        exact ⟨next, hnextT, rfl⟩
    · rw [if_neg hcond]
      refine ih (s ++ ", " ++ next) L0 (Last ++ (", " ++ next).data) Mids hrT
        hsplit_ns hMid ?_
      left
      rw [hlll] at hcond
      by_cases hP : r ≠ [] ∨ ntc = true
      · rw [if_pos hP] at hcond
        have hle : (if r = [] then (if ntc then 1 else 0) else 1) ≤ 1 := by
          by_cases h1 : r = [] <;> by_cases h2 : ntc <;> simp [h1, h2]
        omega
      · rw [if_neg hP] at hcond
        have h1 : r = [] := by
          by_contra hne
          exact hP (Or.inl hne)
        have h2 : ntc = false := by
          cases ntc
          · rfl
          · exact absurd (Or.inr rfl) hP
        rw [h1, h2]
        have hred : (if ([] : List String) = [] then (if (false : Bool) = true then 1 else 0)
            else 1) = 0 := by simp
        rw [hred]
        omega

/-- Claim C1 amended: for the vertical_grid family (vertical_grid,
vertical_grid_grouped, vertical_grid_grouped_no_comma), with newline line
separator, newline-free statement, indent and import tokens, empty comments,
no trailing comma, a non-empty import list and a positive line length: every
physical line of the output except the first has length at most line_length,
unless the line consists of the indent followed by a single import token,
possibly closed by a comma or the final parenthesis. The other non-noqa modes
(vertical, hanging_indent, vertical_hanging_indent, and the opening line of
every mode) enforce no such bound. -/
theorem C1_grid_family_line_length (i : Interface)
    (hsep : i.line_separator = "\n")
    (hcm : i.comments = [])
    (htc : i.include_trailing_comma = false)
    (himp : i.imports ≠ [])
    (hll : 1 ≤ i.line_length)
    (hst : '\n' ∉ i.statement.data)
    (hind : '\n' ∉ i.indent.data)
    (htok : ∀ t ∈ i.imports, '\n' ∉ t.data) :
    (∀ l ∈ (splitList ['\n'] (vertical_grid i).data).tail,
        gridLineOk i.line_length i.indent.data i.imports l) ∧
    (∀ l ∈ (splitList ['\n'] (vertical_grid_grouped i).data).tail,
        gridLineOk i.line_length i.indent.data i.imports l) ∧
    (∀ l ∈ (splitList ['\n'] (vertical_grid_grouped_no_comma i).data).tail,
        gridLineOk i.line_length i.indent.data i.imports l) := by
  cases hI : i.imports with
  | nil => exact absurd hI himp
  | cons first rest =>
  rw [← hI]
  have hfirstT : first ∈ i.imports := by rw [hI]; exact List.mem_cons_self first rest
  have hmem : ∀ t ∈ rest, t ∈ i.imports := by
    intro t ht
    rw [hI]
    exact List.mem_cons_of_mem first ht
  have hfl : '\n' ∉ i.statement.data ++ ['('] := by
    intro h
    rcases List.mem_append.mp h with h | h
    · exact hst h
    · simp at h
  have hll2 : '\n' ∉ i.indent.data ++ first.data := by
    intro h
    rcases List.mem_append.mp h with h | h
    · exact hind h
    · exact htok first hfirstT h
  have hS0d : (i.statement ++ "(" ++ "\n" ++ i.indent ++ first).data =
      (i.statement.data ++ ['(']) ++ '\n' :: (i.indent.data ++ first.data) := by
    simp [String.data_append, List.append_assoc, lparen_data, nl_data]
  have hS0 : splitList ['\n'] (i.statement ++ "(" ++ "\n" ++ i.indent ++ first).data =
      (i.statement.data ++ ['(']) :: ([] ++ [i.indent.data ++ first.data]) := by
    rw [hS0d, splitList_append_cons, splitList_of_not_mem hfl, splitList_of_not_mem hll2]
    rfl
  have key : ∀ ntc : Bool, ∃ (M2 : List (List Char)) (L2 : List Char),
      splitList ['\n'] (vertical_grid_common ntc i).data =
        (i.statement.data ++ ['(']) :: (M2 ++ [L2]) ∧
      (∀ l ∈ M2, l.length ≤ i.line_length ∨
        ∃ t ∈ i.imports, l = i.indent.data ++ t.data ++ [',']) ∧
      (L2.length + (if ntc then 1 else 0) ≤ i.line_length ∨
        ∃ t ∈ i.imports, L2 = i.indent.data ++ t.data) := by
    intro ntc
    have hvgc : vertical_grid_common ntc i =
        vertical_grid_common_aux i.indent i.line_length "\n" ntc rest
          (i.statement ++ "(" ++ "\n" ++ i.indent ++ first) := by
      simp [vertical_grid_common, hI, hcm, hsep, htc, addToLine_nil]
    obtain ⟨M2, L2, hV, hM2, hL2⟩ :=
      vgcAux_lines i.imports i.indent i.line_length ntc htok hind rest
        (i.statement ++ "(" ++ "\n" ++ i.indent ++ first)
        (i.statement.data ++ ['(']) (i.indent.data ++ first.data) [] hmem hS0
        (by simp) (Or.inr ⟨first, hfirstT, rfl⟩)
    exact ⟨M2, L2, by rw [hvgc]; exact hV, hM2, hL2⟩
  refine ⟨?_, ?_, ?_⟩
  · obtain ⟨M2, L2, hV, hM2, hL2⟩ := key true
    have hod : (vertical_grid i).data = (vertical_grid_common true i).data ++ [')'] := by
      show (vertical_grid_common true i ++ ")").data = _
      simp [String.data_append, rparen_data]
    have hsplit : splitList ['\n'] (vertical_grid i).data =
        (i.statement.data ++ ['(']) :: (M2 ++ [L2 ++ [')']]) := by
      rw [hod, splitList_append_of_not_mem '\n' _ [')'] (by decide), hV,
        appendLast_cons _ _ (by simp), appendLast_concat]
    rw [hsplit]
    intro l hl
    rw [List.tail_cons] at hl
    rcases List.mem_append.mp hl with hl | hl
    · rcases hM2 l hl with h | ⟨t, ht, rfl⟩
      · exact Or.inl h
      · exact Or.inr ⟨t, ht, Or.inr (Or.inl rfl)⟩
    · rcases List.mem_singleton.mp hl with rfl
      rcases hL2 with h | ⟨t, ht, rfl⟩
      · left
        simp only [List.length_append, List.length_singleton]
        simp at h
        omega
      · exact Or.inr ⟨t, ht, Or.inr (Or.inr rfl)⟩
  · obtain ⟨M2, L2, hV, hM2, hL2⟩ := key true
    have hod : (vertical_grid_grouped i).data =
        (vertical_grid_common true i).data ++ '\n' :: [')'] := by
      show (vertical_grid_common true i ++ i.line_separator ++ ")").data = _
      rw [hsep]
      simp [String.data_append, List.append_assoc, rparen_data, nl_data]
    have hsplit : splitList ['\n'] (vertical_grid_grouped i).data =
        (i.statement.data ++ ['(']) :: ((M2 ++ [L2]) ++ [[')']]) := by
      rw [hod, splitList_append_cons, hV, splitList_of_not_mem (by decide : '\n' ∉ [')'])]
      rfl
    rw [hsplit]
    intro l hl
    rw [List.tail_cons] at hl
    rcases List.mem_append.mp hl with hl | hl
    · rcases List.mem_append.mp hl with hl | hl
      · rcases hM2 l hl with h | ⟨t, ht, rfl⟩
        · exact Or.inl h
        · exact Or.inr ⟨t, ht, Or.inr (Or.inl rfl)⟩
      · rcases List.mem_singleton.mp hl with rfl
        rcases hL2 with h | ⟨t, ht, rfl⟩
        · left
          simp at h
          omega
        · exact Or.inr ⟨t, ht, Or.inl rfl⟩
    · rcases List.mem_singleton.mp hl with rfl
      left
      simpa using hll
  · obtain ⟨M2, L2, hV, hM2, hL2⟩ := key false
    have hod : (vertical_grid_grouped_no_comma i).data =
        (vertical_grid_common false i).data ++ '\n' :: [')'] := by
      show (vertical_grid_common false i ++ i.line_separator ++ ")").data = _
      rw [hsep]
      simp [String.data_append, List.append_assoc, rparen_data, nl_data]
    have hsplit : splitList ['\n'] (vertical_grid_grouped_no_comma i).data =
        (i.statement.data ++ ['(']) :: ((M2 ++ [L2]) ++ [[')']]) := by
      rw [hod, splitList_append_cons, hV, splitList_of_not_mem (by decide : '\n' ∉ [')'])]
      rfl
    rw [hsplit]
    intro l hl
    rw [List.tail_cons] at hl
    rcases List.mem_append.mp hl with hl | hl
    · rcases List.mem_append.mp hl with hl | hl
      · rcases hM2 l hl with h | ⟨t, ht, rfl⟩
        · exact Or.inl h
        · exact Or.inr ⟨t, ht, Or.inr (Or.inl rfl)⟩
      · rcases List.mem_singleton.mp hl with rfl
        rcases hL2 with h | ⟨t, ht, rfl⟩
        · left
          simp at h
          omega
        · exact Or.inr ⟨t, ht, Or.inl rfl⟩
    · rcases List.mem_singleton.mp hl with rfl
      left
      simpa using hll

/-- Claim C1 witness: the amended line-length statement at a concrete
vertical-grid input that actually wraps. -/
theorem C1_witness :
    iFit1.imports ≠ [] ∧ 1 ≤ iFit1.line_length ∧
    ((∀ l ∈ (splitList ['\n'] (vertical_grid iFit1).data).tail,
        gridLineOk iFit1.line_length iFit1.indent.data iFit1.imports l) ∧
      (∀ l ∈ (splitList ['\n'] (vertical_grid_grouped iFit1).data).tail,
        gridLineOk iFit1.line_length iFit1.indent.data iFit1.imports l) ∧
      (∀ l ∈ (splitList ['\n'] (vertical_grid_grouped_no_comma iFit1).data).tail,
        gridLineOk iFit1.line_length iFit1.indent.data iFit1.imports l)) :=
  ⟨by decide, by decide,
    C1_grid_family_line_length iFit1 rfl rfl rfl (by decide) (by decide) (by decide)
      (by decide) (by decide)⟩
